import Mathlib

/-!
A shallow embedding of `src/hyper.rs` from the http-client repository: the
hyper-based adapter between the abstract `http_types` request/response model
and the native hyper request/response model.  We model header names and
values as strings, bodies as byte lists, and the external validation
routines of the two header representations as explicit boolean parameters
(the source merely invokes them).  Everything else follows the source line
by line: `HyperHttpRequest::try_from`, `HttpTypesResponse::try_from` and
`HyperClient::send`.
-/

/-- Unified error type of the adapter.  The constructor `status c m` models
`Error::from_str(StatusCode(c), m)`; the remaining constructors model the
opaque errors produced by the external libraries and forwarded by the
question-mark operator (header re-encoding failures on the response side,
request body read failures, and engine transport failures). -/
inductive Error where
  | status (code : Nat) (msg : String)
  | invalidHeaderName (n : String)
  | invalidHeaderValue (v : String)
  | transport (id : Nat)
deriving DecidableEq, Repr

/-- Outcome of a translation step.  The constructors `ok` and `err` mirror
the Rust `Result`; `abort` models a failed `unwrap`, which kills the
process instead of returning to the caller. -/
inductive TOutcome (α : Type) where
  | abort
  | err (e : Error)
  | ok (a : α)
deriving DecidableEq, Repr

/-- HTTP protocol versions shared by the two representations (the
conversions between `http_types::Version` and `hyper::Version` are
bijective renamings, so one type serves for both). -/
inductive Version where
  | http09
  | http10
  | http11
  | h2
  | h3
deriving DecidableEq, Repr

/-- Models `hyper::Version::default()`, which is HTTP/1.1. -/
def Version.default : Version := .http11

/-- The abstract URL held by an `http_types` request, abstracted to its
scheme together with its full serialization. -/
structure Url where
  scheme : String
  raw : String
deriving DecidableEq, Repr

/-- The native `hyper::Uri`, abstracted to the data the source inspects:
`scheme_str()` and the raw text. -/
structure Uri where
  scheme_str : Option String
  raw : String
deriving DecidableEq, Repr

/-- The native URI obtained from the printed URL when the conversion
`hyper::Uri::try_from(&format!("{}", value.url()))` at hyper.rs:55
succeeds with the scheme carried through.  The conversion itself can fail:
the http crate rejects some serializations the abstract URL type can hold,
such as the empty-authority form file:///path, and the source unwraps the
result, killing the process.  The fallible conversion is therefore
modelled explicitly as a parameter of `HyperHttpRequest.try_from_fallible`
below; this value describes only the parse-success path, and
`HyperHttpRequest.try_from` is the restriction of the translation to that
path. -/
def Uri.ofUrl (u : Url) : Uri := { scheme_str := some u.scheme, raw := u.raw }

/-- The abstract `http_types::Request`: method, URL, optional version, an
ordered mapping of header name to ordered value sequence, and a body.  The
`body` field holds the result of `value.body_bytes().await`: the drained
bytes, or the read error the stream produced. -/
structure Request where
  method : String
  url : Url
  version : Option Version
  headers : List (String × List String)
  body : Except Error (List Nat)

/-- The native `hyper::Request<Body>` that `HyperHttpRequest::try_from`
assembles.  Native headers are the insertion sequence of an
`http::HeaderMap` built with `append`: a flat list of name/value pairs in
insertion order. -/
structure HyperRequest where
  method : String
  version : Version
  uri : Uri
  headers : List (String × String)
  body : List Nat
deriving DecidableEq, Repr

/-- One result of polling the native response body stream: a data chunk,
or a read error. -/
inductive Chunk where
  | chunkOk (bytes : List Nat)
  | chunkErr
deriving DecidableEq, Repr

/-- The native `hyper::Response<Body>`: status, version, the header pairs
in iteration order, and the body as a stream of chunk results.  Consuming
iteration over an `http::HeaderMap` yields, for every name, the first
value paired with `Some(name)` and each further value under the same name
paired with `None`; the `headers` field is that iteration sequence. -/
structure HyperResponse where
  status : Nat
  version : Version
  headers : List (Option String × String)
  bodyChunks : List Chunk
deriving DecidableEq, Repr

/-- The abstract `http_types::Response` assembled by
`HttpTypesResponse::try_from`. -/
structure Response where
  status : Nat
  version : Option Version
  headers : List (String × List String)
  body : List Nat
deriving DecidableEq, Repr

/-- Models `Response::new(status)`. -/
def Response.new (status : Nat) : Response :=
  { status := status, version := none, headers := [], body := [] }

/-- Models `Headers::insert` of `http_types`: any existing values stored
under the name are replaced by the single new value. -/
def insertPairs : List (String × List String) → String → String → List (String × List String)
  | [], n, v => [(n, [v])]
  | (m, vs) :: rest, n, v =>
    if m = n then (m, [v]) :: rest else (m, vs) :: insertPairs rest n v

/-- Models `res.insert_header(name, value)`. -/
def Response.insert_header (res : Response) (n v : String) : Response :=
  { res with headers := insertPairs res.headers n v }

/-- Inner loop of the request header translation: for each value under the
current name, `hyper::header::HeaderValue::from_bytes(..).unwrap()`
followed by `req_headers.append(..)`.  The parameter `vv` is the validity
predicate of the native header value representation; a rejected value
makes the unwrap abort the process. -/
def encodeValues (vv : String → Bool) (n : String) : List String → TOutcome (List (String × String))
  | [] => .ok []
  | v :: vs =>
    if vv v then
      match encodeValues vv n vs with
      | .ok tl => .ok ((n, v) :: tl)
      | o => o
    else .abort

/-- Outer loop of the request header translation: for each abstract header
name, `hyper::header::HeaderName::from_str(name.as_str()).unwrap()` and
then the value loop.  The parameter `vn` is the validity predicate of the
native header name representation. -/
def encodeHeaders (vn vv : String → Bool) : List (String × List String) → TOutcome (List (String × String))
  | [] => .ok []
  | (n, vs) :: rest =>
    if vn n then
      match encodeValues vv n vs with
      | .ok pairs =>
        match encodeHeaders vn vv rest with
        | .ok tl => .ok (pairs ++ tl)
        | o => o
      | o => o
    else .abort

/-- The part of `HyperHttpRequest::try_from` after the scheme check: the
header loop, `value.body_bytes().await` with error propagation, and the
final builder call assembling method, version (defaulted when unset), URI
and buffered body. -/
def tryFromAfterScheme (vn vv : String → Bool) (value : Request) (uri : Uri) : TOutcome HyperRequest :=
  match encodeHeaders vn vv value.headers with
  | .abort => .abort
  | .err e => .err e
  | .ok hdrs =>
    match value.body with
    | .error e => .err e
    | .ok bytes =>
      .ok { method := value.method
            version := (value.version).getD Version.default
            uri := uri
            headers := hdrs
            body := bytes }

/-- Models `HyperHttpRequest::try_from(value)` (with the resulting
`into_inner` fused in) on the path where the URI unwrap of hyper.rs:55
succeeds scheme-preservingly — see `HyperHttpRequest.try_from_fallible`
for the general model keeping that unwrap fallible: reject any scheme
other than http or https with
`Error::from_str(StatusCode::BadRequest, "invalid scheme")`, then run the
remaining translation. -/
def HyperHttpRequest.try_from (vn vv : String → Bool) (value : Request) : TOutcome HyperRequest :=
  let uri := Uri.ofUrl value.url
  if uri.scheme_str = some "http" ∨ uri.scheme_str = some "https" then
    tryFromAfterScheme vn vv value uri
  else .err (.status 400 "invalid scheme")

/-- Models `HyperHttpRequest::try_from(value)` with the URI conversion of
hyper.rs:55 kept fallible: the native parser is an explicit parameter
applied to the printed URL, and a serialization it rejects makes the
unwrap abort the process before the scheme check is ever reached.  On the
parse-success path this agrees with `HyperHttpRequest.try_from` (see
`try_from_fallible_agrees`). -/
def HyperHttpRequest.try_from_fallible (parse : String → Option Uri)
    (vn vv : String → Bool) (value : Request) : TOutcome HyperRequest :=
  match parse value.url.raw with
  | none => .abort
  | some uri =>
    if uri.scheme_str = some "http" ∨ uri.scheme_str = some "https" then
      tryFromAfterScheme vn vv value uri
    else .err (.status 400 "invalid scheme")

/-- Models the `match body.data().await` block of
`HttpTypesResponse::try_from`: no chunk gives the empty body, a first
successful chunk becomes the whole body, and a failed first read produces
`Error::from_str(StatusCode::BadGateway, "unable to read HTTP response
body")`.  Later chunks are never inspected. -/
def readChunk : List Chunk → Except Error (List Nat)
  | [] => .ok []
  | .chunkOk b :: _ => .ok b
  | .chunkErr :: _ => .error (.status 502 "unable to read HTTP response body")

/-- The response header loop: each native pair has its value re-validated
by `HeaderValue::from_bytes(value)?` (predicate `av`), then, only when the
pair carries a name, the name is re-validated by
`HeaderName::from_str(name)?` (predicate `an`) and the pair is inserted;
nameless pairs are skipped.  Validation failures propagate as errors. -/
def decodeHeaders (an av : String → Bool) : List (Option String × String) → Response → Except Error Response
  | [], res => .ok res
  | (name?, v) :: rest, res =>
    if av v then
      match name? with
      | some n =>
        if an n then decodeHeaders an av rest (res.insert_header n v)
        else .error (.invalidHeaderName n)
      | none => decodeHeaders an av rest res
    else .error (.invalidHeaderValue v)

/-- Models `HttpTypesResponse::try_from(value)` (with `into_inner` fused
in): read at most one body chunk, build the response from the native
status, set the version to the native version, run the header loop, and
attach the buffered body. -/
def HttpTypesResponse.try_from (an av : String → Bool) (value : HyperResponse) : Except Error Response :=
  match readChunk value.bodyChunks with
  | .error e => .error e
  | .ok body =>
    let res := Response.new value.status
    let res := { res with version := some value.version }
    match decodeHeaders an av value.headers res with
    | .error e => .error e
    | .ok res => .ok { res with body := body }

/-- Models `HyperClient::send`: translate the request, dispatch it to the
engine, translate the native response; every failure returns immediately.
The engine (the shared hyper client performing the network exchange) is an
explicit parameter, and the boolean component records whether it was
invoked, so that statements about behaviour before any network activity
can be made.  An abort during request translation kills the process before
any network activity. -/
def HyperClient.send (vn vv an av : String → Bool)
    (engine : HyperRequest → Except Error HyperResponse)
    (req : Request) : TOutcome Response × Bool :=
  match HyperHttpRequest.try_from vn vv req with
  | .abort => (.abort, false)
  | .err e => (.err e, false)
  | .ok hreq =>
    match engine hreq with
    | .error e => (.err e, true)
    | .ok hresp =>
      match HttpTypesResponse.try_from an av hresp with
      | .error e => (.err e, true)
      | .ok resp => (.ok resp, true)

/-- Models `HyperClient::send` over the fallible request translation
`HyperHttpRequest.try_from_fallible`: a rejected URL serialization aborts
the process during request translation, before the engine is ever
invoked; everything else is as in `HyperClient.send`. -/
def HyperClient.send_fallible (parse : String → Option Uri)
    (vn vv an av : String → Bool)
    (engine : HyperRequest → Except Error HyperResponse)
    (req : Request) : TOutcome Response × Bool :=
  match HyperHttpRequest.try_from_fallible parse vn vv req with
  | .abort => (.abort, false)
  | .err e => (.err e, false)
  | .ok hreq =>
    match engine hreq with
    | .error e => (.err e, true)
    | .ok hresp =>
      match HttpTypesResponse.try_from an av hresp with
      | .error e => (.err e, true)
      | .ok resp => (.ok resp, true)

/-- The flattening of an abstract header mapping into native append order:
every value under every name, names in original order and values in
original order under each name. -/
def flatHeaders : List (String × List String) → List (String × String)
  | [] => []
  | (n, vs) :: rest => vs.map (fun v => (n, v)) ++ flatHeaders rest

/-- The consuming iteration sequence of an `http::HeaderMap` holding, for
each listed name, the listed values in order: the first value of a name is
yielded with the name, every further value with no name. -/
def iterPairs : List (String × List String) → List (Option String × String)
  | [] => []
  | (_, []) :: rest => iterPairs rest
  | (n, v :: vs) :: rest =>
    (some n, v) :: (vs.map (fun w => ((none : Option String), w)) ++ iterPairs rest)

/-- The named pairs of a native header iteration sequence, in order. -/
def namedPairs (pairs : List (Option String × String)) : List (String × String) :=
  pairs.filterMap (fun p => p.1.map (fun n => (n, p.2)))

/-- A validator accepting everything. -/
def vAll : String → Bool := fun _ => true

/-- A validator rejecting exactly one given string. -/
def vNot (bad : String) : String → Bool := fun s => !(s == bad)

/-- An engine that always fails with a transport error (used to show that
results are independent of the engine when translation fails early). -/
def engine0 : HyperRequest → Except Error HyperResponse :=
  fun _ => .error (.transport 0)

/-- A concrete abstract request whose URL scheme is ftp. -/
def reqFtp : Request :=
  { method := "GET"
    url := { scheme := "ftp", raw := "ftp://example.com/" }
    version := none
    headers := []
    body := .ok [] }

/-- A concrete abstract request with an http scheme and one header. -/
def reqBadHeader : Request :=
  { method := "GET"
    url := { scheme := "http", raw := "http://example.com/" }
    version := none
    headers := [("bad", ["v"])]
    body := .ok [] }

/-- A concrete abstract request with an http scheme, two headers and a
body. -/
def reqGood : Request :=
  { method := "GET"
    url := { scheme := "http", raw := "http://example.com/" }
    version := none
    headers := [("a", ["1", "2"]), ("b", ["3"])]
    body := .ok [7, 8] }

/-- A concrete native response whose first body chunk fails to read. -/
def respErrChunk : HyperResponse :=
  { status := 200, version := .http11, headers := [], bodyChunks := [.chunkErr] }

/-- A concrete native response carrying one nameless header pair and no
body data. -/
def respNameless : HyperResponse :=
  { status := 200, version := .http11, headers := [(none, "bad")], bodyChunks := [] }

/-- A concrete native response with no headers and no body data. -/
def respEmpty : HyperResponse :=
  { status := 200, version := .http11, headers := [], bodyChunks := [] }

/-- A concrete instance of the native URI parser, fixed at the
serializations used in this file: it rejects the empty-authority form
file:///path, as the http crate does, and parses the scheme of the other
concrete URLs exactly as their serializations carry it. -/
def parse0 : String → Option Uri
  | "file:///path" => none
  | "ftp://example.com/" =>
    some { scheme_str := some "ftp", raw := "ftp://example.com/" }
  | "http://example.com/" =>
    some { scheme_str := some "http", raw := "http://example.com/" }
  | s => some { scheme_str := none, raw := s }

/-- A concrete abstract request whose URL has the file scheme with the
empty-authority serialization the native parser rejects. -/
def reqFile : Request :=
  { method := "GET"
    url := { scheme := "file", raw := "file:///path" }
    version := none
    headers := []
    body := .ok [] }

/-- Characterization of the request value loop: it succeeds with the
values appended in order exactly when the native representation accepts
every value, and otherwise the unwrap aborts. -/
theorem encodeValues_eq (vv : String → Bool) (n : String) (vs : List String) :
    encodeValues vv n vs =
      if vs.all vv then .ok (vs.map (fun v => (n, v))) else .abort := by
  induction vs with
  | nil => simp [encodeValues]
  | cons v vs ih =>
    simp only [encodeValues, List.all_cons, ih]
    by_cases hv : vv v <;> by_cases hvs : vs.all vv <;> simp [hv, hvs]

/-- Characterization of the request header loop: it succeeds with the
flattened header list exactly when the native representation accepts every
name and every value, and otherwise the unwrap aborts. -/
theorem encodeHeaders_eq (vn vv : String → Bool) (hdrs : List (String × List String)) :
    encodeHeaders vn vv hdrs =
      if hdrs.all (fun p => vn p.1 && p.2.all vv) then .ok (flatHeaders hdrs)
      else .abort := by
  induction hdrs with
  | nil => simp [encodeHeaders, flatHeaders]
  | cons p rest ih =>
    obtain ⟨n, vs⟩ := p
    simp only [encodeHeaders, encodeValues_eq, ih, List.all_cons, flatHeaders]
    by_cases hn : vn n <;> by_cases hv : vs.all vv <;>
      by_cases hr : rest.all (fun p => vn p.1 && p.2.all vv) <;>
      simp [hn, hv, hr]

/-- The response header loop never changes the version field. -/
theorem decodeHeaders_version (an av : String → Bool) :
    ∀ (pairs : List (Option String × String)) (res res2 : Response),
      decodeHeaders an av pairs res = .ok res2 → res2.version = res.version := by
  intro pairs
  induction pairs with
  | nil =>
    intro res res2 h
    simp [decodeHeaders] at h
    rw [h]
  | cons p rest ih =>
    intro res res2 h
    obtain ⟨name?, v⟩ := p
    by_cases hv : av v
    · cases name? with
      | none =>
        simp only [decodeHeaders, if_pos hv] at h
        exact ih res res2 h
      | some n =>
        by_cases hn : an n
        · simp only [decodeHeaders, if_pos hv, if_pos hn] at h
          have hver := ih _ _ h
          simpa [Response.insert_header] using hver
        · simp only [decodeHeaders, if_pos hv, if_neg hn] at h
          cases h
    · simp only [decodeHeaders, if_neg hv] at h
      cases h

/-- Unfolding of `namedPairs` on a named pair. -/
theorem namedPairs_cons_some (n v : String) (rest : List (Option String × String)) :
    namedPairs ((some n, v) :: rest) = (n, v) :: namedPairs rest := by
  simp [namedPairs]

/-- Unfolding of `namedPairs` on a nameless pair. -/
theorem namedPairs_cons_none (v : String) (rest : List (Option String × String)) :
    namedPairs ((none, v) :: rest) = namedPairs rest := by
  simp [namedPairs]

/-- The headers a successful response header loop produces are obtained by
inserting exactly the named native pairs, in iteration order, into the
starting headers; nameless pairs contribute nothing. -/
theorem decodeHeaders_headers (an av : String → Bool) :
    ∀ (pairs : List (Option String × String)) (res res2 : Response),
      decodeHeaders an av pairs res = .ok res2 →
      res2.headers =
        (namedPairs pairs).foldl (fun h p => insertPairs h p.1 p.2) res.headers := by
  intro pairs
  induction pairs with
  | nil =>
    intro res res2 h
    simp [decodeHeaders] at h
    rw [h, namedPairs]
    simp
  | cons p rest ih =>
    intro res res2 h
    obtain ⟨name?, v⟩ := p
    by_cases hv : av v
    · cases name? with
      | none =>
        simp only [decodeHeaders, if_pos hv] at h
        rw [namedPairs_cons_none]
        exact ih res res2 h
      | some n =>
        by_cases hn : an n
        · simp only [decodeHeaders, if_pos hv, if_pos hn] at h
          rw [namedPairs_cons_some, List.foldl_cons]
          have := ih _ _ h
          simpa [Response.insert_header] using this
        · simp only [decodeHeaders, if_pos hv, if_neg hn] at h
          cases h
    · simp only [decodeHeaders, if_neg hv] at h
      cases h

/-- A run of nameless pairs whose values all pass abstract validation is
skipped without any effect on the response being built. -/
theorem decodeHeaders_nameless (an av : String → Bool) :
    ∀ (l : List String) (res : Response), (∀ v ∈ l, av v = true) →
      decodeHeaders an av (l.map (fun w => ((none : Option String), w))) res = .ok res := by
  intro l
  induction l with
  | nil => intro res _; simp [decodeHeaders]
  | cons v l ih =>
    intro res hall
    have hv : av v = true := hall v (by simp)
    simp only [List.map_cons, decodeHeaders, if_pos hv]
    exact ih res (fun w hw => hall w (by simp [hw]))

/-- Anatomy of a successful response translation: the chunk read
succeeded, the header loop succeeded starting from the freshly built
response carrying the native status and version, and the result is that
response with the buffered body attached. -/
theorem respTryFrom_ok (an av : String → Bool) (value : HyperResponse) (r : Response)
    (h : HttpTypesResponse.try_from an av value = .ok r) :
    ∃ b res2, readChunk value.bodyChunks = .ok b ∧
      decodeHeaders an av value.headers
        { status := value.status, version := some value.version,
          headers := [], body := [] } = .ok res2 ∧
      r = { res2 with body := b } := by
  unfold HttpTypesResponse.try_from at h
  cases hb : readChunk value.bodyChunks with
  | error e => rw [hb] at h; cases h
  | ok b =>
    rw [hb] at h
    simp only [Response.new] at h
    cases hd : decodeHeaders an av value.headers
        { status := value.status, version := some value.version,
          headers := [], body := [] } with
    | error e => rw [hd] at h; cases h
    | ok res2 =>
      rw [hd] at h
      simp only [Except.ok.injEq] at h
      exact ⟨b, res2, rfl, rfl, h.symm⟩

/-- On the parse-success path carrying the scheme through, the fallible
request translation agrees with `HyperHttpRequest.try_from`: the
statements about `HyperHttpRequest.try_from` describe exactly the runs in
which the URI unwrap of hyper.rs:55 succeeds. -/
theorem try_from_fallible_agrees (parse : String → Option Uri)
    (vn vv : String → Bool) (value : Request)
    (h : parse value.url.raw = some (Uri.ofUrl value.url)) :
    HyperHttpRequest.try_from_fallible parse vn vv value =
      HyperHttpRequest.try_from vn vv value := by
  unfold HyperHttpRequest.try_from_fallible HyperHttpRequest.try_from
  rw [h]

/-- Counterexample for C1 as stated: under the native parser instance that
rejects the serialization "file:///path", as the http crate does, the
concrete file-scheme request makes translation abort the process at the
URI unwrap, before the scheme check — `send` never produces the 400
"invalid scheme" client error the claim asserts for every request with a
non-http/https scheme. -/
theorem c1_parse_abort_counterexample :
    HyperHttpRequest.try_from_fallible parse0 vAll vAll reqFile = .abort ∧
    HyperClient.send_fallible parse0 vAll vAll vAll vAll engine0 reqFile =
      (.abort, false) ∧
    (TOutcome.abort : TOutcome HyperRequest) ≠
      .err (.status 400 "invalid scheme") :=
  ⟨by rfl, by rfl, by decide⟩

/-- C1 (amended): for every request whose printed URL the native URI
parser accepts, a parsed scheme other than http or https makes
translation fail with the client error 400 "invalid scheme" and `send`
returns that error without invoking the engine, while an http or https
scheme passes the check and translation proceeds with the remaining
steps; a request whose printed URL the parser rejects aborts the process
at the unwrap, also before any network activity. -/
theorem c1_scheme_check_fallible (parse : String → Option Uri)
    (vn vv an av : String → Bool)
    (engine : HyperRequest → Except Error HyperResponse) (req : Request) :
    (parse req.url.raw = none →
      HyperHttpRequest.try_from_fallible parse vn vv req = .abort ∧
      HyperClient.send_fallible parse vn vv an av engine req =
        (.abort, false)) ∧
    (∀ uri, parse req.url.raw = some uri →
      ((uri.scheme_str ≠ some "http" ∧ uri.scheme_str ≠ some "https") →
        HyperHttpRequest.try_from_fallible parse vn vv req =
          .err (.status 400 "invalid scheme") ∧
        HyperClient.send_fallible parse vn vv an av engine req =
          (.err (.status 400 "invalid scheme"), false)) ∧
      ((uri.scheme_str = some "http" ∨ uri.scheme_str = some "https") →
        HyperHttpRequest.try_from_fallible parse vn vv req =
          tryFromAfterScheme vn vv req uri)) := by
  constructor
  · intro hp
    have ht : HyperHttpRequest.try_from_fallible parse vn vv req = .abort := by
      simp only [HyperHttpRequest.try_from_fallible, hp]
    exact ⟨ht, by simp only [HyperClient.send_fallible, ht]⟩
  · intro uri hp
    constructor
    · rintro ⟨h1, h2⟩
      have hcond : ¬(uri.scheme_str = some "http" ∨
          uri.scheme_str = some "https") := by
        simp [h1, h2]
      have ht : HyperHttpRequest.try_from_fallible parse vn vv req =
          .err (.status 400 "invalid scheme") := by
        simp only [HyperHttpRequest.try_from_fallible, hp]
        rw [if_neg hcond]
      exact ⟨ht, by simp only [HyperClient.send_fallible, ht]⟩
    · intro h
      simp only [HyperHttpRequest.try_from_fallible, hp]
      rw [if_pos h]

/-- Witness for C1: at the concrete ftp request under the concrete parser
instance, the parse succeeds with the ftp scheme and `send` fails with
the 400 client error without invoking the engine. -/
theorem c1_scheme_check_fallible_witness :
    parse0 reqFtp.url.raw =
      some { scheme_str := some "ftp", raw := "ftp://example.com/" } ∧
    HyperClient.send_fallible parse0 vAll vAll vAll vAll engine0 reqFtp =
      (.err (.status 400 "invalid scheme"), false) :=
  ⟨by rfl,
   (((c1_scheme_check_fallible parse0 vAll vAll vAll vAll engine0 reqFtp).2
      { scheme_str := some "ftp", raw := "ftp://example.com/" } (by rfl)).1
      (by decide)).2⟩

/-- C7: every error of the pipeline surfaces unchanged to the caller of
`send` with no internal recovery, and a successful `send` is exactly a
fully translated response: the request translated, the engine answered,
and the response translated, with no partially populated result. -/
theorem c7_error_propagation (vn vv an av : String → Bool)
    (engine : HyperRequest → Except Error HyperResponse) (req : Request) :
    (∀ e, HyperHttpRequest.try_from vn vv req = .err e →
      HyperClient.send vn vv an av engine req = (.err e, false)) ∧
    (∀ hreq e, HyperHttpRequest.try_from vn vv req = .ok hreq →
      engine hreq = .error e →
      HyperClient.send vn vv an av engine req = (.err e, true)) ∧
    (∀ hreq hresp e, HyperHttpRequest.try_from vn vv req = .ok hreq →
      engine hreq = .ok hresp →
      HttpTypesResponse.try_from an av hresp = .error e →
      HyperClient.send vn vv an av engine req = (.err e, true)) ∧
    (∀ resp b, HyperClient.send vn vv an av engine req = (.ok resp, b) →
      b = true ∧ ∃ hreq hresp,
        HyperHttpRequest.try_from vn vv req = .ok hreq ∧
        engine hreq = .ok hresp ∧
        HttpTypesResponse.try_from an av hresp = .ok resp) := by
  refine ⟨?_, ?_, ?_, ?_⟩
  · intro e h
    simp [HyperClient.send, h]
  · intro hreq e h1 h2
    simp [HyperClient.send, h1, h2]
  · intro hreq hresp e h1 h2 h3
    simp [HyperClient.send, h1, h2, h3]
  · intro resp b h
    cases htf : HyperHttpRequest.try_from vn vv req with
    | abort => simp [HyperClient.send, htf] at h
    | err e => simp [HyperClient.send, htf] at h
    | ok hreq =>
      cases hen : engine hreq with
      | error e => simp [HyperClient.send, htf, hen] at h
      | ok hresp =>
        cases hrt : HttpTypesResponse.try_from an av hresp with
        | error e => simp [HyperClient.send, htf, hen, hrt] at h
        | ok r2 =>
          simp only [HyperClient.send, htf, hen, hrt, Prod.mk.injEq,
            TOutcome.ok.injEq] at h
          obtain ⟨h1, h2⟩ := h
          exact ⟨h2.symm, hreq, hresp, rfl, hen, by rw [← h1]; exact hrt⟩

/-- Witness for C7: at the concrete ftp request and the always-failing
engine, the request-translation error surfaces as the result of `send`
with the engine not invoked. -/
theorem c7_error_propagation_witness :
    HyperHttpRequest.try_from vAll vAll reqFtp =
      .err (.status 400 "invalid scheme") ∧
    HyperClient.send vAll vAll vAll vAll engine0 reqFtp =
      (.err (.status 400 "invalid scheme"), false) :=
  ⟨by decide,
   (c7_error_propagation vAll vAll vAll vAll engine0 reqFtp).1
     (.status 400 "invalid scheme") (by decide)⟩

/-- C10: whenever the response translation succeeds, the version of the
abstract response is the native version wrapped in Some; it is never left
absent. -/
theorem c10_version_always_set (an av : String → Bool) (value : HyperResponse)
    (r : Response) (h : HttpTypesResponse.try_from an av value = .ok r) :
    r.version = some value.version := by
  obtain ⟨b, res2, hb, hd, hr⟩ := respTryFrom_ok an av value r h
  have := decodeHeaders_version an av value.headers _ res2 hd
  rw [hr]
  simpa using this

/-- Witness for C10: the concrete header-free native response translates
successfully and its version field is Some of the native version. -/
theorem c10_version_always_set_witness :
    HttpTypesResponse.try_from vAll vAll respEmpty =
      .ok { status := 200, version := some Version.http11,
            headers := [], body := [] } ∧
    ({ status := 200, version := some Version.http11,
       headers := [], body := [] } : Response).version = some respEmpty.version :=
  ⟨by rfl,
   c10_version_always_set vAll vAll respEmpty
     { status := 200, version := some Version.http11, headers := [], body := [] }
     (by rfl)⟩

/-- Anatomy of a successful request translation past the scheme check: the
header loop succeeded, the body was drained successfully, and the native
request assembles method, defaulted version, URI, encoded headers and
buffered body. -/
theorem afterScheme_ok (vn vv : String → Bool) (value : Request) (uri : Uri)
    (hr : HyperRequest) (h : tryFromAfterScheme vn vv value uri = .ok hr) :
    ∃ hdrs bytes, encodeHeaders vn vv value.headers = .ok hdrs ∧
      value.body = .ok bytes ∧
      hr = { method := value.method,
             version := value.version.getD Version.default,
             uri := uri, headers := hdrs, body := bytes } := by
  unfold tryFromAfterScheme at h
  cases he : encodeHeaders vn vv value.headers with
  | abort => rw [he] at h; cases h
  | err e => rw [he] at h; cases h
  | ok hdrs =>
    rw [he] at h
    cases hb : value.body with
    | error e => rw [hb] at h; cases h
    | ok bytes =>
      rw [hb] at h
      simp only [TOutcome.ok.injEq] at h
      exact ⟨hdrs, bytes, rfl, rfl, h.symm⟩

/-- C5: whenever the request translation succeeds, the native request
carries every abstract header name and, under each name, every value, in
the original order — the flattened append sequence of the abstract header
mapping, so nothing is overwritten. -/
theorem c5_request_headers_preserved (vn vv : String → Bool) (req : Request)
    (hr : HyperRequest) (h : HyperHttpRequest.try_from vn vv req = .ok hr) :
    hr.headers = flatHeaders req.headers := by
  unfold HyperHttpRequest.try_from at h
  by_cases hs : (Uri.ofUrl req.url).scheme_str = some "http" ∨
      (Uri.ofUrl req.url).scheme_str = some "https"
  · rw [if_pos hs] at h
    obtain ⟨hdrs, bytes, he, hb, hhr⟩ := afterScheme_ok vn vv req _ hr h
    rw [encodeHeaders_eq] at he
    by_cases hall : req.headers.all (fun p => vn p.1 && p.2.all vv)
    · rw [if_pos hall] at he
      simp only [TOutcome.ok.injEq] at he
      rw [hhr]
      exact he.symm
    · rw [if_neg hall] at he
      cases he
  · rw [if_neg hs] at h
    cases h

/-- Witness for C5: the concrete two-header request translates to a native
request whose header sequence is exactly the flattening of the abstract
headers. -/
theorem c5_request_headers_preserved_witness :
    HyperHttpRequest.try_from vAll vAll reqGood =
      .ok { method := "GET", version := Version.http11,
            uri := { scheme_str := some "http", raw := "http://example.com/" },
            headers := [("a", "1"), ("a", "2"), ("b", "3")],
            body := [7, 8] } ∧
    ({ method := "GET", version := Version.http11,
       uri := { scheme_str := some "http", raw := "http://example.com/" },
       headers := [("a", "1"), ("a", "2"), ("b", "3")],
       body := [7, 8] } : HyperRequest).headers = flatHeaders reqGood.headers :=
  ⟨by rfl,
   c5_request_headers_preserved vAll vAll reqGood
     { method := "GET", version := Version.http11,
       uri := { scheme_str := some "http", raw := "http://example.com/" },
       headers := [("a", "1"), ("a", "2"), ("b", "3")],
       body := [7, 8] } (by rfl)⟩

/-- C4: header translation is byte-for-byte: a successful request
translation carries exactly the original names and values (none dropped,
none altered), and a successful response translation builds its headers by
inserting exactly the named native pairs verbatim, in iteration order —
the only entries not carried over are the nameless pairs of the
pathological multi-value iteration case. -/
theorem c4_byte_for_byte (vn vv an av : String → Bool)
    (hdrs : List (String × List String)) (out : List (String × String))
    (pairs : List (Option String × String)) (res res2 : Response) :
    (encodeHeaders vn vv hdrs = .ok out → out = flatHeaders hdrs) ∧
    (decodeHeaders an av pairs res = .ok res2 →
      res2.headers =
        (namedPairs pairs).foldl (fun h p => insertPairs h p.1 p.2) res.headers) := by
  constructor
  · intro h
    rw [encodeHeaders_eq] at h
    by_cases hall : hdrs.all (fun p => vn p.1 && p.2.all vv)
    · rw [if_pos hall] at h
      simp only [TOutcome.ok.injEq] at h
      exact h.symm
    · rw [if_neg hall] at h
      cases h
  · exact decodeHeaders_headers an av pairs res res2

/-- Witness for C4: both directions at concrete inputs — the request side
on the two-header request, the response side on a pair list holding one
named and one nameless pair. -/
theorem c4_byte_for_byte_witness :
    (encodeHeaders vAll vAll reqGood.headers =
        .ok [("a", "1"), ("a", "2"), ("b", "3")] ∧
      [("a", "1"), ("a", "2"), ("b", "3")] = flatHeaders reqGood.headers) ∧
    (decodeHeaders vAll vAll [(some "x", "1"), (none, "2")] (Response.new 200) =
        .ok { status := 200, version := none, headers := [("x", ["1"])], body := [] } ∧
      ({ status := 200, version := none, headers := [("x", ["1"])], body := [] }
          : Response).headers =
        (namedPairs [(some "x", "1"), (none, "2")]).foldl
          (fun h p => insertPairs h p.1 p.2) (Response.new 200).headers) :=
  ⟨⟨by rfl,
    (c4_byte_for_byte vAll vAll vAll vAll reqGood.headers
      [("a", "1"), ("a", "2"), ("b", "3")] [] (Response.new 200)
      (Response.new 200)).1 (by rfl)⟩,
   ⟨by rfl,
    (c4_byte_for_byte vAll vAll vAll vAll [] []
      [(some "x", "1"), (none, "2")] (Response.new 200)
      { status := 200, version := none, headers := [("x", ["1"])], body := [] }).2
      (by rfl)⟩⟩

/-- C2 (amended): the response translator reads exactly one chunk: no
chunk gives the empty abstract body, a first successful chunk is the whole
abstract body with any later chunks never inspected, and a failed first
read fails translation with the gateway error 502 "unable to read HTTP
response body". -/
theorem c2_single_chunk (an av : String → Bool) (value : HyperResponse) :
    (value.bodyChunks = [] →
      ∀ r, HttpTypesResponse.try_from an av value = .ok r → r.body = []) ∧
    (∀ b rest, value.bodyChunks = .chunkOk b :: rest →
      HttpTypesResponse.try_from an av value =
        HttpTypesResponse.try_from an av { value with bodyChunks := [.chunkOk b] } ∧
      ∀ r, HttpTypesResponse.try_from an av value = .ok r → r.body = b) ∧
    (∀ rest, value.bodyChunks = .chunkErr :: rest →
      HttpTypesResponse.try_from an av value =
        .error (.status 502 "unable to read HTTP response body")) := by
  refine ⟨?_, ?_, ?_⟩
  · intro hc r h
    obtain ⟨b, res2, hb, hd, hr⟩ := respTryFrom_ok an av value r h
    rw [hc] at hb
    simp only [readChunk, Except.ok.injEq] at hb
    rw [hr]
    exact hb.symm
  · intro b rest hc
    constructor
    · unfold HttpTypesResponse.try_from
      rw [hc]
      rfl
    · intro r h
      obtain ⟨b0, res2, hb, hd, hr⟩ := respTryFrom_ok an av value r h
      rw [hc] at hb
      simp only [readChunk, Except.ok.injEq] at hb
      rw [hr]
      exact hb.symm
  · intro rest hc
    unfold HttpTypesResponse.try_from
    rw [hc]
    rfl

/-- Counterexample for C2 as stated: when the first chunk read fails the
source produces the message "unable to read HTTP response body", not the
message "unable to read response body" quoted by the claim. -/
theorem c2_single_chunk_counterexample :
    HttpTypesResponse.try_from vAll vAll respErrChunk =
      .error (.status 502 "unable to read HTTP response body") ∧
    Error.status 502 "unable to read HTTP response body" ≠
      Error.status 502 "unable to read response body" :=
  ⟨by rfl, by decide⟩

/-- Witness for C2 at the concrete failing-chunk response. -/
theorem c2_single_chunk_witness :
    respErrChunk.bodyChunks = [Chunk.chunkErr] ∧
    HttpTypesResponse.try_from vAll vAll respErrChunk =
      .error (.status 502 "unable to read HTTP response body") :=
  ⟨by rfl, (c2_single_chunk vAll vAll respErrChunk).2.2 [] (by rfl)⟩

/-- Counterexample for C3 as stated: with a native representation that
rejects the header name "bad", translating the concrete request carrying
that header kills the process (unwrap abort) — it neither succeeds nor
returns an error to the caller. -/
theorem c3_counterexample :
    HyperHttpRequest.try_from (vNot "bad") vAll reqBadHeader = .abort := by
  rfl

/-- C3 (amended): request translation relies on validation parity through
unwrap: for a request that passes the scheme check, whenever the native
representation rejects some header name or some header value, translation
aborts the process instead of returning a header-format error. -/
theorem c3_header_reencode_aborts (vn vv : String → Bool) (req : Request)
    (hs : req.url.scheme = "http" ∨ req.url.scheme = "https")
    (hbad : ¬ req.headers.all (fun p => vn p.1 && p.2.all vv)) :
    HyperHttpRequest.try_from vn vv req = .abort := by
  have hcond : (Uri.ofUrl req.url).scheme_str = some "http" ∨
      (Uri.ofUrl req.url).scheme_str = some "https" := by
    simpa [Uri.ofUrl] using hs
  unfold HyperHttpRequest.try_from
  rw [if_pos hcond]
  unfold tryFromAfterScheme
  rw [encodeHeaders_eq, if_neg hbad]

/-- Witness for C3 at the concrete request with a rejected header name. -/
theorem c3_header_reencode_aborts_witness :
    ((reqBadHeader.url.scheme = "http" ∨ reqBadHeader.url.scheme = "https") ∧
      ¬ reqBadHeader.headers.all (fun p => vNot "bad" p.1 && p.2.all vAll)) ∧
    HyperHttpRequest.try_from (vNot "bad") vAll reqBadHeader = .abort :=
  ⟨⟨by decide, by decide⟩,
   c3_header_reencode_aborts (vNot "bad") vAll reqBadHeader
     (by decide) (by decide)⟩

/-- Counterexample for C6 as stated: with an abstract representation that
rejects the value "bad", the native response whose only header pair is
nameless with that value fails to translate, while the same response
without the pair succeeds — so meeting a nameless entry is not always
failure-free. -/
theorem c6_counterexample :
    HttpTypesResponse.try_from vAll (vNot "bad") respNameless =
      .error (.invalidHeaderValue "bad") ∧
    HttpTypesResponse.try_from vAll (vNot "bad") respEmpty =
      .ok { status := 200, version := some Version.http11,
            headers := [], body := [] } :=
  ⟨by rfl, by rfl⟩

/-- C6 (amended): a nameless native header pair is never inserted into the
abstract headers: its value is re-validated first, and when the abstract
representation accepts the value the pair is skipped with no effect at
all, while a rejected value fails the whole translation with the
propagated header-format error. -/
theorem c6_nameless_skipped (an av : String → Bool) (v : String)
    (rest : List (Option String × String)) (res : Response) :
    (av v = true →
      decodeHeaders an av (((none : Option String), v) :: rest) res =
        decodeHeaders an av rest res) ∧
    (av v = false →
      decodeHeaders an av (((none : Option String), v) :: rest) res =
        .error (.invalidHeaderValue v)) := by
  constructor
  · intro hv
    simp [decodeHeaders, hv]
  · intro hv
    simp [decodeHeaders, hv]

/-- Witness for C6: both conjuncts at concrete inputs — an accepted value
is skipped transparently, a rejected value fails translation. -/
theorem c6_nameless_skipped_witness :
    (decodeHeaders vAll vAll [((none : Option String), "x")] (Response.new 200) =
      decodeHeaders vAll vAll [] (Response.new 200)) ∧
    (decodeHeaders vAll (vNot "bad") [((none : Option String), "bad")]
        (Response.new 200) =
      .error (.invalidHeaderValue "bad")) :=
  ⟨(c6_nameless_skipped vAll vAll "x" [] (Response.new 200)).1 (by rfl),
   (c6_nameless_skipped vAll (vNot "bad") "bad" [] (Response.new 200)).2 (by rfl)⟩

/-- C9: a native response holding several values under one name yields an
abstract response retaining only the first of those values: the iteration
pairs the name only with the first value, the later values arrive nameless
and are skipped, and the named value is inserted by overwrite, so the
abstract headers hold exactly the single first value under the name. -/
theorem c9_first_value_only (an av : String → Bool) (st : Nat) (ver : Version)
    (n v1 : String) (vs : List String)
    (_hvs : vs ≠ []) (h1 : av v1 = true) (h2 : ∀ v ∈ vs, av v = true)
    (hn : an n = true) :
    HttpTypesResponse.try_from an av
      { status := st, version := ver,
        headers := iterPairs [(n, v1 :: vs)], bodyChunks := [] } =
      .ok { status := st, version := some ver,
            headers := [(n, [v1])], body := [] } := by
  unfold HttpTypesResponse.try_from
  simp only [readChunk, Response.new]
  have hiter : iterPairs [(n, v1 :: vs)] =
      (some n, v1) :: vs.map (fun w => ((none : Option String), w)) := by
    simp [iterPairs]
  rw [hiter]
  simp only [decodeHeaders, h1, hn, if_true]
  rw [decodeHeaders_nameless an av vs _ h2]
  simp [Response.insert_header, insertPairs]

/-- Witness for C9 at a concrete two-valued header. -/
theorem c9_first_value_only_witness :
    HttpTypesResponse.try_from vAll vAll
      { status := 200, version := Version.http11,
        headers := iterPairs [("x", ["1", "2"])], bodyChunks := [] } =
      .ok { status := 200, version := some Version.http11,
            headers := [("x", ["1"])], body := [] } :=
  c9_first_value_only vAll vAll 200 Version.http11 "x" "1" ["2"]
    (by decide) (by rfl) (by decide) (by rfl)
